import Mathlib

/-!
Shallow embedding of the Equilibrium price-oracle repository
(eq-primitives asset encoding, eq-oracle pallet aggregation engine,
submission validator, transport guard, and JSON price-source pipeline),
together with proofs of the specification's testable properties.

Conventions of the embedding:
- Rust machine integers (u8 bytes, u64 identifiers and timestamps,
  block numbers) are `Nat`; where wrap-around or saturation matters it is
  written explicitly.
- The generic fixed-point price type `T::Price` is embedded as `ℚ` with
  its linear order; `saturating_from_integer(2)` is the literal `2`.
- Fallible Rust functions returning `Result` become `Except`.
- Storage reads/writes are explicit state passing: a function that
  mutates `PricePoints` takes the stored `Option PriceData` and returns
  the new one.
-/

namespace Equilibrium

/-! ## eq-primitives/src/lib.rs : Asset encoding -/

/-- u8::is_ascii_digit on a byte value. -/
def is_ascii_digit (b : Nat) : Bool := 48 ≤ b && b ≤ 57

/-- u8::is_ascii_uppercase on a byte value. -/
def is_ascii_uppercase (b : Nat) : Bool := 65 ≤ b && b ≤ 90

/-- u8::is_ascii_lowercase on a byte value. -/
def is_ascii_lowercase (b : Nat) : Bool := 97 ≤ b && b ≤ 122

/-- u8::to_ascii_lowercase on a byte value. -/
def to_ascii_lowercase (b : Nat) : Nat :=
  if is_ascii_uppercase b then b + 32 else b

/-- The error enum `AssetError` of eq-primitives. -/
inductive AssetError where
  | DebtWeightNegative
  | DebtWeightMoreThanOne
  | AssetNameWrongLength
  | AssetNameWrongSymbols
  | PriceStepNegative
deriving DecidableEq, Repr

/-- `Asset(pub AssetIdInnerType)`: a u64 newtype. -/
structure Asset where
  id : Nat
deriving DecidableEq, Repr

/-- `size_of::<AssetIdInnerType>()` where the inner type is u64. -/
def SIZE_OF_ASSET_ID_INNER : Nat := 8

/-- `Asset::lower_case`: lowers ASCII-uppercase bytes in place and checks
that every (lowered) byte is an ASCII digit or lowercase letter. The Rust
function mutates the buffer and returns a success flag; the caller uses
the buffer only on success, so the embedding returns the lowered list on
success and `none` on the first offending byte. -/
def Asset.lower_case : List Nat → Option (List Nat)
  | [] => some []
  | b :: rest =>
    let b' := if is_ascii_uppercase b then to_ascii_lowercase b else b
    if is_ascii_digit b' || is_ascii_lowercase b' then
      (Asset.lower_case rest).map (fun r => b' :: r)
    else
      none

/-- u64::from_be_bytes over a big-endian byte list. -/
def u64_from_be_bytes (bytes : List Nat) : Nat :=
  bytes.foldl (fun acc b => acc * 256 + b) 0

/-- u64::to_be_bytes: the 8 big-endian bytes of a 64-bit value. -/
def u64_to_be_bytes (n : Nat) : List Nat :=
  [n / 256 ^ 7 % 256, n / 256 ^ 6 % 256, n / 256 ^ 5 % 256, n / 256 ^ 4 % 256,
   n / 256 ^ 3 % 256, n / 256 ^ 2 % 256, n / 256 ^ 1 % 256, n % 256]

/-- `Asset::from_bytes`: rejects over-length input, case-folds and checks
the bytes, then left-pads with zero bytes to 8 bytes and packs them
big-endian into the u64 identifier. `saturated[len..]` of
`[0u8; 8] ++ asset` is embedded as `List.drop asset.length`. -/
def Asset.from_bytes (asset : List Nat) : Except AssetError Asset :=
  if asset.length > SIZE_OF_ASSET_ID_INNER then
    .error .AssetNameWrongLength
  else
    match Asset.lower_case asset with
    | none => .error .AssetNameWrongSymbols
    | some lowered =>
      let saturated := (List.replicate SIZE_OF_ASSET_ID_INNER 0 ++ lowered).drop lowered.length
      .ok ⟨u64_from_be_bytes saturated⟩

/-- `Asset::to_str_bytes`: the big-endian bytes of the identifier with all
zero bytes filtered out. -/
def Asset.to_str_bytes (a : Asset) : List Nat :=
  (u64_to_be_bytes a.id).filter (fun b => b != 0)

/-- Spec-side predicate: a byte is an ASCII letter or digit,
case-insensitively. -/
def is_ascii_alphanumeric (b : Nat) : Bool :=
  is_ascii_digit b || is_ascii_lowercase b || is_ascii_uppercase b

/-- Spec-side lowercase of a byte string. -/
def lowercase_bytes (s : List Nat) : List Nat :=
  s.map to_ascii_lowercase

/-! ### Lemmas about the asset byte codec -/

theorem lower_case_of_alnum (s : List Nat)
    (h : ∀ b ∈ s, is_ascii_alphanumeric b = true) :
    Asset.lower_case s = some (lowercase_bytes s) := by
  induction s with
  | nil => rfl
  | cons b rest ih =>
    have hb := h b (List.mem_cons_self b rest)
    have hrest := ih fun x hx => h x (List.mem_cons_of_mem b hx)
    simp only [Asset.lower_case, lowercase_bytes, List.map_cons]
    have hb' : (if is_ascii_uppercase b then to_ascii_lowercase b else b) =
        to_ascii_lowercase b := by
      by_cases hcase : is_ascii_uppercase b = true
      · simp [hcase]
      · simp only [Bool.not_eq_true] at hcase
        simp [to_ascii_lowercase, hcase]
    rw [hb']
    have hok : (is_ascii_digit (to_ascii_lowercase b)
        || is_ascii_lowercase (to_ascii_lowercase b)) = true := by
      simp only [is_ascii_alphanumeric, is_ascii_digit, is_ascii_lowercase,
        is_ascii_uppercase, to_ascii_lowercase, Bool.or_eq_true,
        Bool.and_eq_true, decide_eq_true_eq] at hb ⊢
      by_cases hup : 65 ≤ b ∧ b ≤ 90
      · simp only [if_pos (by simpa [Bool.and_eq_true, decide_eq_true_eq] using hup)]
        omega
      · rw [if_neg (by simpa [Bool.and_eq_true, decide_eq_true_eq] using hup)]
        omega
    rw [if_pos hok, hrest]
    rfl

theorem lowercase_bytes_bounds (s : List Nat)
    (h : ∀ b ∈ s, is_ascii_alphanumeric b = true) :
    ∀ b ∈ lowercase_bytes s, 0 < b ∧ b < 256 := by
  intro b hb
  simp only [lowercase_bytes, List.mem_map] at hb
  obtain ⟨x, hx, rfl⟩ := hb
  have := h x hx
  simp only [is_ascii_alphanumeric, is_ascii_digit, is_ascii_lowercase,
    is_ascii_uppercase, Bool.or_eq_true, Bool.and_eq_true,
    decide_eq_true_eq] at this
  simp only [to_ascii_lowercase, is_ascii_uppercase]
  by_cases hup : 65 ≤ x ∧ x ≤ 90
  · rw [if_pos (by simpa [Bool.and_eq_true, decide_eq_true_eq] using hup)]
    omega
  · rw [if_neg (by simpa [Bool.and_eq_true, decide_eq_true_eq] using hup)]
    omega

theorem u64_from_be_bytes_replicate_zero_append (k : Nat) (l : List Nat) :
    u64_from_be_bytes (List.replicate k 0 ++ l) = u64_from_be_bytes l := by
  induction k with
  | zero => rfl
  | succ n ih =>
    simpa [u64_from_be_bytes, List.replicate_succ] using ih

theorem drop_replicate_append (l : List Nat) (h : l.length ≤ 8) :
    (List.replicate 8 0 ++ l).drop l.length =
      List.replicate (8 - l.length) 0 ++ l := by
  rw [List.drop_append_of_le_length (by simpa using h), List.drop_replicate]

/-- Round trip of the big-endian codec on byte lists of length at most 8,
stated with the zero padding made explicit. -/
theorem u64_be_roundtrip (l : List Nat) (hb : ∀ b ∈ l, b < 256)
    (hlen : l.length ≤ 8) :
    u64_to_be_bytes (u64_from_be_bytes l) =
      List.replicate (8 - l.length) 0 ++ l := by
  induction l using List.reverseRecOn with
  | nil => rfl
  | append_singleton l' b ih =>
    have hb' : ∀ x ∈ l', x < 256 := fun x hx => hb x (List.mem_append_left _ hx)
    have hblast : b < 256 := hb b (List.mem_append_right _ (List.mem_singleton_self b))
    have hlen' : l'.length ≤ 7 := by
      simp only [List.length_append, List.length_singleton] at hlen
      omega
    have ihm := ih hb' (by omega)
    set m := u64_from_be_bytes l' with hm
    have hfold : u64_from_be_bytes (l' ++ [b]) = m * 256 + b := by
      simp only [u64_from_be_bytes, List.foldl_append, List.foldl_cons,
        List.foldl_nil]
      rfl
    rw [hfold]
    have hrep : List.replicate (8 - l'.length) (0 : Nat) =
        0 :: List.replicate (7 - l'.length) 0 := by
      have h8 : 8 - l'.length = (7 - l'.length) + 1 := by omega
      rw [h8, List.replicate_succ]
    rw [hrep] at ihm
    have htail : [m / 256 ^ 6 % 256, m / 256 ^ 5 % 256, m / 256 ^ 4 % 256,
        m / 256 ^ 3 % 256, m / 256 ^ 2 % 256, m / 256 ^ 1 % 256, m % 256] =
        List.replicate (7 - l'.length) 0 ++ l' := by
      have h := congrArg List.tail ihm
      simpa [u64_to_be_bytes] using h
    have key : u64_to_be_bytes (m * 256 + b) =
        [m / 256 ^ 6 % 256, m / 256 ^ 5 % 256, m / 256 ^ 4 % 256,
         m / 256 ^ 3 % 256, m / 256 ^ 2 % 256, m / 256 ^ 1 % 256, m % 256, b] := by
      simp only [u64_to_be_bytes, List.cons.injEq, and_true]
      norm_num
      omega
    have hgoal : 8 - (l' ++ [b]).length = 7 - l'.length := by
      simp only [List.length_append, List.length_singleton]
      omega
    rw [hgoal, key, ← List.append_assoc, ← htail]
    rfl

theorem filter_ne_zero_replicate_append (k : Nat) (l : List Nat)
    (h : ∀ b ∈ l, 0 < b) :
    (List.replicate k 0 ++ l).filter (fun b => b != 0) = l := by
  rw [List.filter_append]
  have h1 : (List.replicate k (0 : Nat)).filter (fun b => b != 0) = [] := by
    apply List.filter_eq_nil_iff.mpr
    intro a ha
    simp only [List.mem_replicate] at ha
    simp [ha.2]
  have h2 : l.filter (fun b => b != 0) = l := by
    apply List.filter_eq_self.mpr
    intro a ha
    have := h a ha
    simp only [bne_iff_ne, ne_eq]
    omega
  rw [h1, h2, List.nil_append]

theorem check_lowered_iff (b : Nat) :
    ((is_ascii_digit (if is_ascii_uppercase b then to_ascii_lowercase b else b)
      || is_ascii_lowercase (if is_ascii_uppercase b then to_ascii_lowercase b else b)) = true) ↔
      is_ascii_alphanumeric b = true := by
  simp only [is_ascii_alphanumeric, is_ascii_digit, is_ascii_lowercase,
    is_ascii_uppercase, to_ascii_lowercase, Bool.or_eq_true, Bool.and_eq_true,
    decide_eq_true_eq]
  by_cases h : 65 ≤ b ∧ b ≤ 90
  · simp only [if_pos h]
    omega
  · simp only [if_neg h]
    omega

theorem lower_case_eq_none_iff (s : List Nat) :
    Asset.lower_case s = none ↔ ∃ b ∈ s, is_ascii_alphanumeric b = false := by
  induction s with
  | nil => simp [Asset.lower_case]
  | cons b rest ih =>
    simp only [Asset.lower_case]
    by_cases halnum : is_ascii_alphanumeric b = true
    · rw [if_pos ((check_lowered_iff b).mpr halnum)]
      constructor
      · intro h
        have : Asset.lower_case rest = none := by
          cases hrc : Asset.lower_case rest with
          | none => rfl
          | some v => simp [hrc] at h
        obtain ⟨x, hx, hxf⟩ := ih.mp this
        exact ⟨x, List.mem_cons_of_mem b hx, hxf⟩
      · intro ⟨x, hx, hxf⟩
        rcases List.mem_cons.mp hx with rfl | hx'
        · rw [halnum] at hxf
          cases hxf
        · rw [ih.mpr ⟨x, hx', hxf⟩]
          rfl
    · rw [if_neg (fun hcond => absurd ((check_lowered_iff b).mp hcond) halnum)]
      simp only [true_iff]
      exact ⟨b, List.mem_cons_self b rest, by simpa using halnum⟩

/-- C2: for every ASCII string of length at most 8 whose bytes are letters
or digits (case-insensitively), `Asset::from_bytes` succeeds and
`Asset::to_str_bytes` of the resulting asset is exactly the lowercase of
the input. -/
theorem asset_encode_decode_roundtrip (s : List Nat) (hlen : s.length ≤ 8)
    (halnum : ∀ b ∈ s, is_ascii_alphanumeric b = true) :
    ∃ a : Asset, Asset.from_bytes s = .ok a ∧
      a.to_str_bytes = lowercase_bytes s := by
  have hlower := lower_case_of_alnum s halnum
  have hlblen : (lowercase_bytes s).length = s.length := by
    simp [lowercase_bytes]
  have hbounds := lowercase_bytes_bounds s halnum
  refine ⟨⟨u64_from_be_bytes (lowercase_bytes s)⟩, ?_, ?_⟩
  · simp only [Asset.from_bytes, SIZE_OF_ASSET_ID_INNER, hlower]
    rw [if_neg (by omega)]
    rw [drop_replicate_append (lowercase_bytes s) (by omega),
      u64_from_be_bytes_replicate_zero_append]
  · simp only [Asset.to_str_bytes]
    rw [u64_be_roundtrip _ (fun b hb => (hbounds b hb).2) (by omega)]
    exact filter_ne_zero_replicate_append _ _ (fun b hb => (hbounds b hb).1)

/-- C2 witness: the asset string "BTC" (bytes 66, 84, 67) round-trips to
its lowercase "btc" (bytes 98, 116, 99). -/
theorem asset_encode_decode_roundtrip_witness :
    ([66, 84, 67] : List Nat).length ≤ 8 ∧
      (∀ b ∈ ([66, 84, 67] : List Nat), is_ascii_alphanumeric b = true) ∧
      (∃ a : Asset, Asset.from_bytes [66, 84, 67] = .ok a ∧
        a.to_str_bytes = lowercase_bytes [66, 84, 67]) :=
  ⟨by decide, by decide, asset_encode_decode_roundtrip [66, 84, 67] (by decide) (by decide)⟩

/-- C3 counterexample: `Asset::from_bytes` does NOT reject the empty
input; it succeeds and yields the asset with identifier 0. -/
theorem from_bytes_empty_input_accepted :
    Asset.from_bytes [] = .ok ⟨0⟩ := by
  rfl

/-- C3 (amended): `Asset::from_bytes` returns an error exactly for inputs
longer than 8 bytes or containing a byte that is not an ASCII letter or
digit; the empty input is accepted and yields the zero asset id. -/
theorem from_bytes_error_iff (s : List Nat) :
    (∃ e, Asset.from_bytes s = .error e) ↔
      (8 < s.length ∨ ∃ b ∈ s, is_ascii_alphanumeric b = false) := by
  simp only [Asset.from_bytes, SIZE_OF_ASSET_ID_INNER]
  by_cases hlen : 8 < s.length
  · rw [if_pos hlen]
    simp [hlen]
  · rw [if_neg hlen]
    cases hlc : Asset.lower_case s with
    | none =>
      have := (lower_case_eq_none_iff s).mp hlc
      simp only [this, or_true, iff_true]
      exact ⟨.AssetNameWrongSymbols, rfl⟩
    | some lowered =>
      have hnone : ¬∃ b ∈ s, is_ascii_alphanumeric b = false := by
        intro hex
        rw [(lower_case_eq_none_iff s).mpr hex] at hlc
        cases hlc
      simp only [hnone, or_false]
      constructor
      · intro ⟨e, he⟩
        cases he
      · intro h
        exact absurd h hlen

/-! ## pallets/eq-oracle/src/lib.rs : data model

`T::AccountId` is embedded as `Nat`, `T::BlockNumber` as `Nat`, unix
timestamps (u64 seconds) as `Nat`, and `T::Price` as `ℚ`. -/

/-- `PricePoint<AccountId, BlockNumber, Price>`. -/
structure PricePoint where
  block_number : Nat
  timestamp : Nat
  price : ℚ
  account_id : Nat
deriving DecidableEq, Repr, Inhabited

/-- `PriceData<AccountId, BlockNumber, Price>`; its `Default` has zero
block number, timestamp and price and an empty point list. -/
structure PriceData where
  block_number : Nat
  timestamp : Nat
  price : ℚ
  price_points : List PricePoint
deriving DecidableEq, Repr, Inhabited

/-- The pallet error enum `Error<T>` of eq-oracle. -/
inductive OracleError where
  | AdditionalValidatorFailed
  | NotAllowedToSubmitPrice
  | PriceAlreadyAdded
  | CurrencyNotFound
  | WrongCurrency
  | PriceIsZero
  | PriceIsNegative
  | PriceTimeout
deriving DecidableEq, Repr

/-- `DispatchResult` errors: either one of the pallet's own errors or an
error propagated from a collaborator (`T::AssetGetter::get_asset_data`),
embedded as an opaque numeric code. -/
inductive DispatchErr where
  | oracle (e : OracleError)
  | external (code : Nat)
deriving DecidableEq, Repr

namespace Pallet

/-- Rust core's `slice::binary_search_by` loop on the interval
`[left, right)`, with the comparator already applied to slice elements.
The loop is embedded with an explicit fuel argument that strictly bounds
the interval width; the width shrinks every iteration, so any
`width < fuel` call never hits the fuel-exhaustion branch (proved in
`binary_search_go_spec`). `Except.ok` is Rust's `Ok(pos)` (comparator hit
`Equal`), `Except.error` is `Err(pos)` (insertion position). -/
def binary_search_go (cmp : Nat → Ordering) : Nat → Nat → Nat → Except Nat Nat
  | 0, left, _ => .error left
  | fuel + 1, left, right =>
    if left < right then
      let mid := left + (right - left) / 2
      match cmp mid with
      | .lt => binary_search_go cmp fuel (mid + 1) right
      | .eq => .ok mid
      | .gt => binary_search_go cmp fuel left mid
    else
      .error left

/-- `Vec::binary_search_by(|dp| dp.price.cmp(&price))` over the point
list: binary search for the price among the points. -/
def binary_search_by_price (l : List PricePoint) (price : ℚ) : Except Nat Nat :=
  binary_search_go (fun i => compare ((l.getD i default).price) price)
    (l.length + 1) 0 l.length

/-- `Pallet::calc_median_price` over a (sorted) point list, with the
source's unguarded indexing `data_points[len / 2]` and
`data_points[len / 2 - 1]` rendered as `getD` with a default element. -/
def calc_median_price (data_points : List PricePoint) : ℚ :=
  let len := data_points.length
  if len % 2 == 0 then
    ((data_points.getD (len / 2 - 1) default).price +
      (data_points.getD (len / 2) default).price) / 2
  else
    (data_points.getD (len / 2) default).price

/-- `Pallet::set_price_inner`: the storage mutation of one accepted (or
rejected) submission for one asset. `maybe_price_data` is the stored
`PricePoints` entry; `block_number` and `timestamp` are the host-supplied
current block and wall-clock time. On success the new stored entry is
returned; `try_mutate` leaves storage unchanged on error. -/
def set_price_inner (priceTimeout : Nat) (who : Nat) (price : ℚ)
    (block_number timestamp : Nat) (maybe_price_data : Option PriceData) :
    Except OracleError PriceData :=
  let price_data := maybe_price_data.getD default
  if price_data.block_number == block_number &&
      price_data.price_points.any
        (fun pp => pp.account_id == who && pp.block_number == block_number) then
    .error .PriceAlreadyAdded
  else
    let retained := price_data.price_points.filter
      (fun pp => decide (timestamp < pp.timestamp + priceTimeout) && pp.account_id != who)
    let data_point : PricePoint :=
      { account_id := who, price := price,
        block_number := block_number, timestamp := timestamp }
    let pos := match binary_search_by_price retained price with
      | .ok p => p
      | .error p => p
    let price_points := retained.insertIdx pos data_point
    let median_price := calc_median_price price_points
    .ok { block_number := block_number, timestamp := timestamp,
          price := median_price, price_points := price_points }

/-- `Pallet::filter_prices_from` restricted to one asset's stored entry:
strip all points of `who`; delete the entry if the list becomes empty;
recompute the median if it shrank but stayed non-empty. -/
def filter_prices_from (who : Nat) (entry : Option PriceData) : Option PriceData :=
  match entry with
  | none => none
  | some pd =>
    let initial_len := pd.price_points.length
    let retained := pd.price_points.filter (fun pp => pp.account_id != who)
    if retained.length == 0 then
      none
    else if retained.length != initial_len then
      some { pd with price := calc_median_price retained, price_points := retained }
    else
      some pd

/-- `Pallet::get_price` (the `PriceGetter` read path) for one asset:
`entry` is the stored `PricePoints` entry, `current_time` the wall-clock
now. -/
def get_price (medianPriceTimeout : Nat) (current_time : Nat)
    (entry : Option PriceData) : Except OracleError ℚ :=
  match entry with
  | none => .error .CurrencyNotFound
  | some price_point =>
    if price_point.timestamp + medianPriceTimeout ≤ current_time then
      .error .PriceTimeout
    else if price_point.price = 0 then
      .error .PriceIsZero
    else if price_point.price < 0 then
      .error .PriceIsNegative
    else
      .ok price_point.price

/-- Collaborator results consumed by `Pallet::validate_params`, one field
per external capability, fixed at the moment of the call: the pluggable
`T::AdditionalParamsValidator`, the `T::Whitelist` membership test, the
`T::AssetGetter::get_asset_data` lookup, the `T::SpecialPrices` and
`T::DirectPriceCorrelation` overlays (their converted values for this
asset), and `T::AssetGetter::exists`. -/
structure ValidateEnv where
  additional_ok : Bool
  in_whitelist : Bool
  asset_lookup : Except Nat Unit
  special_price : Option ℚ
  direct_correlation : Option (Nat × ℚ)
  asset_exists : Bool
deriving Repr

/-- `Pallet::validate_params`: the submission validator, with each check
in source order and the first failure winning. -/
def validate_params (env : ValidateEnv) (price : ℚ) : Except DispatchErr Unit :=
  if !env.additional_ok then
    .error (.oracle .AdditionalValidatorFailed)
  else if !env.in_whitelist then
    .error (.oracle .NotAllowedToSubmitPrice)
  else
    match env.asset_lookup with
    | .error err => .error (.external err)
    | .ok _ =>
      if env.special_price.isSome || env.direct_correlation.isSome then
        .error (.oracle .WrongCurrency)
      else if price < 0 then
        .error (.oracle .PriceIsNegative)
      else if price = 0 then
        .error (.oracle .PriceIsZero)
      else if !env.asset_exists then
        .error (.oracle .WrongCurrency)
      else
        .ok ()

/-- `InvalidTransaction` variants produced by
`Pallet::validate_unsigned`. -/
inductive TxInvalid where
  | BadProof
  | Stale
  | Call
deriving DecidableEq, Repr

/-- The accepted-transaction data built by `validate_unsigned`:
`ValidTransaction` priority and longevity (the dedup tag
`(public, asset)` is fixed by the payload and carried implicitly). -/
structure ValidTx where
  priority : Nat
  longevity : Nat
deriving DecidableEq, Repr

/-- u64::saturating_add. -/
def u64_saturating_add (a b : Nat) : Nat :=
  min (a + b) (2 ^ 64 - 1)

/-- `Pallet::validate_unsigned` for a `set_price_unsigned` call:
`signature_valid` is the `SignedPayload::verify` outcome,
`params_result` the `validate_params` outcome for the payload, and
`(initial_priority, min_transaction_weight)` is `T::UnsignedPriority`. -/
def validate_unsigned (unsignedLifetimeInBlocks : Nat)
    (initial_priority min_transaction_weight : Nat)
    (current_block : Nat) (signature_valid : Bool)
    (payload_block_number : Nat) (params_result : Except DispatchErr Unit) :
    Except TxInvalid ValidTx :=
  if !signature_valid then
    .error .BadProof
  else if current_block < payload_block_number then
    .error .Stale
  else if payload_block_number + unsignedLifetimeInBlocks < current_block then
    .error .Stale
  else
    match params_result with
    | .error _ => .error .Call
    | .ok _ =>
      .ok { priority := u64_saturating_add initial_priority
              (payload_block_number % min_transaction_weight),
            longevity := 5 }

/-! ### Binary-search insertion: correctness lemmas -/

theorem binary_search_go_spec (v : Nat → ℚ) (key : ℚ) (n : Nat)
    (hmono : ∀ i j, i ≤ j → j < n → v i ≤ v j) :
    ∀ fuel left right, left ≤ right → right ≤ n → right - left < fuel →
      (∀ i, i < left → v i < key) →
      (∀ i, right ≤ i → i < n → key < v i) →
      ∀ pos,
        (binary_search_go (fun i => compare (v i) key) fuel left right = .ok pos ∨
          binary_search_go (fun i => compare (v i) key) fuel left right = .error pos) →
        pos ≤ n ∧ (∀ i, i < pos → v i ≤ key) ∧ (∀ i, pos ≤ i → i < n → key ≤ v i) := by
  intro fuel
  induction fuel with
  | zero =>
    intro left right hlr hrn hfuel
    omega
  | succ fuel ih =>
    intro left right hlr hrn hfuel hleft hright pos hpos
    by_cases hlt : left < right
    · have hmidlt : left + (right - left) / 2 < right := by omega
      have hmidn : left + (right - left) / 2 < n := by omega
      simp only [binary_search_go, if_pos hlt] at hpos
      rcases hcmp : compare (v (left + (right - left) / 2)) key with _ | _ | _
      · rw [hcmp] at hpos
        have hvmid : v (left + (right - left) / 2) < key := compare_lt_iff_lt.mp hcmp
        refine ih (left + (right - left) / 2 + 1) right (by omega) hrn (by omega)
          (fun i hi => ?_) hright pos hpos
        by_cases hsmall : i < left
        · exact hleft i hsmall
        · exact lt_of_le_of_lt (hmono i (left + (right - left) / 2) (by omega) hmidn) hvmid
      · rw [hcmp] at hpos
        have hvmid : v (left + (right - left) / 2) = key := compare_eq_iff_eq.mp hcmp
        have hpos' : pos = left + (right - left) / 2 := by
          rcases hpos with h | h <;> cases h <;> rfl
        subst hpos'
        refine ⟨by omega, fun i hi => ?_, fun i hi hin => ?_⟩
        · by_cases hsmall : i < left
          · exact le_of_lt (hleft i hsmall)
          · calc v i ≤ v (left + (right - left) / 2) := hmono _ _ (by omega) hmidn
              _ = key := hvmid
        · calc key = v (left + (right - left) / 2) := hvmid.symm
            _ ≤ v i := hmono _ _ hi hin
      · rw [hcmp] at hpos
        have hvmid : key < v (left + (right - left) / 2) := compare_gt_iff_gt.mp hcmp
        refine ih left (left + (right - left) / 2) (by omega) (by omega) (by omega)
          hleft (fun i hi hin => ?_) pos hpos
        exact lt_of_lt_of_le hvmid (hmono _ _ hi hin)
    · simp only [binary_search_go, if_neg hlt] at hpos
      have hpos' : pos = left := by
        rcases hpos with h | h <;> cases h <;> rfl
      exact ⟨by omega, fun i hi => le_of_lt (hleft i (by omega)),
        fun i hi hin => le_of_lt (hright i (by omega) hin)⟩

/-- The insertion position computed by
`binary_search_by(|dp| dp.price.cmp(&price))` on a price-sorted point
list: it is within bounds, everything before it has price at most the
key, everything at or after it has price at least the key. -/
theorem binary_search_by_price_spec (l : List PricePoint) (price : ℚ)
    (hsorted : l.Pairwise (fun a b => a.price ≤ b.price)) (pos : Nat)
    (hpos : binary_search_by_price l price = .ok pos ∨
      binary_search_by_price l price = .error pos) :
    pos ≤ l.length ∧
      (∀ i, i < pos → (l.getD i default).price ≤ price) ∧
      (∀ i, pos ≤ i → i < l.length → price ≤ (l.getD i default).price) := by
  have hmono : ∀ i j, i ≤ j → j < l.length →
      (l.getD i default).price ≤ (l.getD j default).price := by
    intro i j hij hj
    rcases Nat.eq_or_lt_of_le hij with rfl | hlt
    · exact le_refl _
    · rw [List.getD_eq_getElem l default (by omega), List.getD_eq_getElem l default hj]
      exact List.pairwise_iff_getElem.mp hsorted i j (by omega) hj hlt
  exact binary_search_go_spec (fun i => (l.getD i default).price) price l.length
    hmono (l.length + 1) 0 l.length (by omega) (by omega) (by omega)
    (by omega) (fun i hi hin => by omega) pos hpos

theorem insertIdx_eq_take_append_drop {α : Type} (x : α) :
    ∀ (n : Nat) (l : List α), n ≤ l.length →
      l.insertIdx n x = l.take n ++ x :: l.drop n := by
  intro n
  induction n with
  | zero => intro l _; rfl
  | succ m ih =>
    intro l hn
    cases l with
    | nil => simp at hn
    | cons a rest =>
      simp only [List.insertIdx_succ_cons, List.take_succ_cons, List.drop_succ_cons,
        List.cons_append, List.cons.injEq, true_and]
      exact ih rest (by simpa using hn)

/-- Inserting an element at a position produced by the binary search
preserves sortedness by price. -/
theorem insertIdx_pairwise_price (l : List PricePoint) (x : PricePoint) (pos : Nat)
    (hsorted : l.Pairwise (fun a b => a.price ≤ b.price))
    (hle : pos ≤ l.length)
    (hbefore : ∀ i, i < pos → (l.getD i default).price ≤ x.price)
    (hafter : ∀ i, pos ≤ i → i < l.length → x.price ≤ (l.getD i default).price) :
    (l.insertIdx pos x).Pairwise (fun a b => a.price ≤ b.price) := by
  rw [insertIdx_eq_take_append_drop x pos l hle]
  rw [List.pairwise_append]
  refine ⟨hsorted.sublist (List.take_sublist pos l), ?_, ?_⟩
  · rw [List.pairwise_cons]
    refine ⟨fun b hb => ?_, hsorted.sublist (List.drop_sublist pos l)⟩
    obtain ⟨j, hj, rfl⟩ := List.mem_iff_getElem.mp hb
    have hlen : (l.drop pos).length = l.length - pos := by simp
    rw [List.getElem_drop]
    have hidx : pos + j < l.length := by omega
    have := hafter (pos + j) (by omega) hidx
    rwa [List.getD_eq_getElem l default hidx] at this
  · intro a ha b hb
    obtain ⟨i, hi, rfl⟩ := List.mem_iff_getElem.mp ha
    have hlent : (l.take pos).length = min pos l.length := by simp
    have hipos : i < pos := by omega
    have hil : i < l.length := by omega
    rw [List.getElem_take]
    rcases List.mem_cons.mp hb with rfl | hb'
    · have := hbefore i hipos
      rwa [List.getD_eq_getElem l default hil] at this
    · obtain ⟨j, hj, rfl⟩ := List.mem_iff_getElem.mp hb'
      have hlend : (l.drop pos).length = l.length - pos := by simp
      rw [List.getElem_drop]
      exact List.pairwise_iff_getElem.mp hsorted i (pos + j) hil (by omega) (by omega)

/-! ### Median of submitted prices: spec-side formula -/

/-- The spec's median of a bag of submitted prices: sort ascending, take
the middle element for an odd count, the arithmetic mean of the two
middle elements for an even count. -/
def median_of_prices (prices : List ℚ) : ℚ :=
  let sorted := prices.insertionSort (· ≤ ·)
  if sorted.length % 2 == 1 then
    sorted.getD (sorted.length / 2) 0
  else
    (sorted.getD (sorted.length / 2 - 1) 0 + sorted.getD (sorted.length / 2) 0) / 2

theorem getD_map_price (pts : List PricePoint) (i : Nat) :
    (pts.map (fun p => p.price)).getD i 0 = (pts.getD i default).price := by
  by_cases h : i < pts.length
  · rw [List.getD_eq_getElem _ _ (by simpa using h), List.getD_eq_getElem _ _ h,
      List.getElem_map]
  · rw [List.getD_eq_default _ _ (by simpa using h), List.getD_eq_default _ _ (by omega)]
    rfl

/-- `calc_median_price` on a price-sorted point list is the spec's median
of any bag of prices it carries. -/
theorem calc_median_eq_median_of_prices (pts : List PricePoint) (prices : List ℚ)
    (hsorted : pts.Pairwise (fun a b => a.price ≤ b.price))
    (hperm : (pts.map (fun p => p.price)).Perm prices) :
    calc_median_price pts = median_of_prices prices := by
  have hs : prices.insertionSort (· ≤ ·) = pts.map (fun p => p.price) := by
    refine List.eq_of_perm_of_sorted ((List.perm_insertionSort _ prices).trans hperm.symm)
      (List.sorted_insertionSort _ prices) ?_
    exact hsorted.map _ (fun a b h => h)
  have hlen : (prices.insertionSort (· ≤ ·)).length = pts.length := by
    rw [hs, List.length_map]
  rcases Nat.mod_two_eq_zero_or_one pts.length with hpar | hpar
  · simp only [calc_median_price, median_of_prices, hs, List.length_map, hpar,
      getD_map_price]
    rfl
  · simp only [calc_median_price, median_of_prices, hs, List.length_map, hpar,
      getD_map_price]
    rfl

/-! ### One round of distinct-feeder submissions -/

/-- Dispatching a list of `set_price` submissions `(feeder, price)` in
sequence against one asset's stored entry, all within one block and one
wall-clock timestamp (one round); the first error aborts. -/
def run_submissions (priceTimeout block_number timestamp : Nat)
    (st : Option PriceData) : List (Nat × ℚ) → Except OracleError (Option PriceData)
  | [] => .ok st
  | (who, price) :: rest =>
    match set_price_inner priceTimeout who price block_number timestamp st with
    | .error e => .error e
    | .ok pd => run_submissions priceTimeout block_number timestamp (some pd) rest

/-- Invariant of a stored entry after the submissions `subs` (as a bag)
were all accepted within one round: the stored points carry exactly the
submitted (feeder, price) pairs, are sorted ascending by price, all have
this round's timestamp and block number, and the stored aggregate is the
median of the stored points. -/
structure RoundInv (block_number timestamp : Nat) (subs : List (Nat × ℚ))
    (pd : PriceData) : Prop where
  points_perm : (pd.price_points.map (fun p => (p.account_id, p.price))).Perm subs
  sorted : pd.price_points.Pairwise (fun a b => a.price ≤ b.price)
  stamps : ∀ p ∈ pd.price_points, p.timestamp = timestamp ∧ p.block_number = block_number
  block : pd.block_number = block_number
  agg : pd.price = calc_median_price pd.price_points

theorem RoundInv.perm_subs {block_number timestamp : Nat}
    {subs subs' : List (Nat × ℚ)} {pd : PriceData}
    (h : RoundInv block_number timestamp subs pd) (hp : subs.Perm subs') :
    RoundInv block_number timestamp subs' pd :=
  ⟨h.points_perm.trans hp, h.sorted, h.stamps, h.block, h.agg⟩

/-- Inserting a fresh feeder's point at a position that respects the
price order preserves the round invariant, with the new pair added. -/
theorem inserted_round_inv (block_number timestamp : Nat) (subs : List (Nat × ℚ))
    (pd : PriceData) (who : Nat) (price : ℚ) (p : Nat)
    (hinv : RoundInv block_number timestamp subs pd)
    (hle : p ≤ pd.price_points.length)
    (hbefore : ∀ i, i < p → (pd.price_points.getD i default).price ≤ price)
    (hafter : ∀ i, p ≤ i → i < pd.price_points.length →
      price ≤ (pd.price_points.getD i default).price) :
    RoundInv block_number timestamp ((who, price) :: subs)
      { block_number := block_number, timestamp := timestamp,
        price := calc_median_price (pd.price_points.insertIdx p
          { account_id := who, price := price, block_number := block_number,
            timestamp := timestamp }),
        price_points := pd.price_points.insertIdx p
          { account_id := who, price := price, block_number := block_number,
            timestamp := timestamp } } := by
  have hperm : ((pd.price_points.insertIdx p
      ({ account_id := who, price := price, block_number := block_number,
         timestamp := timestamp } : PricePoint)).map
        (fun q => (q.account_id, q.price))).Perm
      ((({ account_id := who, price := price, block_number := block_number,
           timestamp := timestamp } : PricePoint) :: pd.price_points).map
        (fun q => (q.account_id, q.price))) :=
    (List.perm_insertIdx _ _ hle).map _
  refine ⟨?_, ?_, ?_, rfl, rfl⟩
  · exact hperm.trans (hinv.points_perm.cons (who, price))
  · exact insertIdx_pairwise_price pd.price_points _ p hinv.sorted hle hbefore hafter
  · intro q hq
    have hq' : q ∈ ({ account_id := who, price := price,
                      block_number := block_number,
                      timestamp := timestamp } : PricePoint) :: pd.price_points :=
      (List.perm_insertIdx _ _ hle).mem_iff.mp hq
    rcases List.mem_cons.mp hq' with rfl | hq''
    · exact ⟨rfl, rfl⟩
    · exact hinv.stamps q hq''

/-- One accepted submission extends the round invariant: a fresh feeder's
submission within the same round is accepted and the stored entry again
satisfies the invariant with the new pair added. -/
theorem set_price_inner_step (priceTimeout block_number timestamp : Nat)
    (subs : List (Nat × ℚ)) (pd : PriceData) (who : Nat) (price : ℚ)
    (hpt : 0 < priceTimeout)
    (hinv : RoundInv block_number timestamp subs pd)
    (hfresh : who ∉ subs.map Prod.fst) :
    ∃ pd', set_price_inner priceTimeout who price block_number timestamp (some pd) =
        .ok pd' ∧
      RoundInv block_number timestamp ((who, price) :: subs) pd' := by
  have haccount : ∀ p ∈ pd.price_points, p.account_id ≠ who := by
    intro p hp heq
    apply hfresh
    have hmem : (p.account_id, p.price) ∈ subs :=
      hinv.points_perm.mem_iff.mp
        (List.mem_map.mpr ⟨p, hp, rfl⟩)
    exact heq ▸ List.mem_map.mpr ⟨(p.account_id, p.price), hmem, rfl⟩
  have hany : pd.price_points.any
      (fun pp => pp.account_id == who && pp.block_number == block_number) = false := by
    rw [List.any_eq_false]
    intro pp hpp
    simp only [Bool.and_eq_true, beq_iff_eq, not_and]
    intro hacc
    exact absurd hacc (haccount pp hpp)
  have hfilter : pd.price_points.filter
      (fun pp => decide (timestamp < pp.timestamp + priceTimeout) && pp.account_id != who) =
      pd.price_points := by
    rw [List.filter_eq_self]
    intro pp hpp
    have hts := (hinv.stamps pp hpp).1
    simp only [Bool.and_eq_true, decide_eq_true_eq, bne_iff_ne, ne_eq]
    exact ⟨by omega, haccount pp hpp⟩
  simp only [set_price_inner, Option.getD_some, hany, Bool.and_false,
    Bool.false_eq_true, if_false, hfilter]
  rcases hbs : binary_search_by_price pd.price_points price with p | p
  · simp only [hbs]
    obtain ⟨hle, hbefore, hafter⟩ :=
      binary_search_by_price_spec pd.price_points price hinv.sorted p (Or.inr hbs)
    exact ⟨_, rfl, inserted_round_inv block_number timestamp subs pd who price p
      hinv hle hbefore hafter⟩
  · simp only [hbs]
    obtain ⟨hle, hbefore, hafter⟩ :=
      binary_search_by_price_spec pd.price_points price hinv.sorted p (Or.inl hbs)
    exact ⟨_, rfl, inserted_round_inv block_number timestamp subs pd who price p
      hinv hle hbefore hafter⟩

/-- The first submission of a round with no stored entry is accepted and
establishes the round invariant. -/
theorem set_price_inner_first (priceTimeout block_number timestamp : Nat)
    (who : Nat) (price : ℚ) :
    ∃ pd', set_price_inner priceTimeout who price block_number timestamp none =
        .ok pd' ∧
      RoundInv block_number timestamp [(who, price)] pd' := by
  have hcond : ((default : PriceData).block_number == block_number &&
      (default : PriceData).price_points.any
        (fun pp => pp.account_id == who && pp.block_number == block_number)) = false := by
    rw [show ((default : PriceData).price_points.any
        (fun pp => pp.account_id == who && pp.block_number == block_number)) = false
      from rfl]
    exact Bool.and_false _
  simp only [set_price_inner, Option.getD_none, hcond, Bool.false_eq_true, if_false]
  refine ⟨_, rfl, ?_, ?_, ?_, rfl, rfl⟩
  · exact List.Perm.refl _
  · exact List.pairwise_singleton _ _
  · intro q hq
    rcases List.mem_singleton.mp hq with rfl
    exact ⟨rfl, rfl⟩

/-- Running a round's remaining submissions from a state satisfying the
invariant: all are accepted and the invariant extends over them. -/
theorem run_submissions_inv (priceTimeout block_number timestamp : Nat)
    (hpt : 0 < priceTimeout) :
    ∀ (todo done : List (Nat × ℚ)) (pd : PriceData),
      RoundInv block_number timestamp done pd →
      (todo.map Prod.fst).Nodup →
      (∀ w ∈ todo.map Prod.fst, w ∉ done.map Prod.fst) →
      ∃ pd', run_submissions priceTimeout block_number timestamp (some pd) todo =
          .ok (some pd') ∧
        RoundInv block_number timestamp (todo ++ done) pd' := by
  intro todo
  induction todo with
  | nil =>
    intro done pd hinv _ _
    exact ⟨pd, rfl, by simpa using hinv⟩
  | cons hd rest ih =>
    intro done pd hinv hnodup hdisj
    obtain ⟨who, price⟩ := hd
    simp only [List.map_cons, List.nodup_cons] at hnodup
    have hfresh : who ∉ done.map Prod.fst := hdisj who (by simp)
    obtain ⟨pd1, hstep, hinv1⟩ :=
      set_price_inner_step priceTimeout block_number timestamp done pd who price
        hpt hinv hfresh
    have hdisj1 : ∀ w ∈ rest.map Prod.fst, w ∉ ((who, price) :: done).map Prod.fst := by
      intro w hw
      simp only [List.map_cons, List.mem_cons, not_or]
      exact ⟨fun heq => hnodup.1 (heq ▸ hw), hdisj w (by simp [hw])⟩
    obtain ⟨pd', hrun, hinv'⟩ := ih ((who, price) :: done) pd1 hinv1 hnodup.2 hdisj1
    refine ⟨pd', ?_, ?_⟩
    · simp only [run_submissions, hstep]
      exact hrun
    · exact hinv'.perm_subs (List.perm_middle)

/-- C1: for every sequence of submissions for one asset within one round
(same block number and timestamp), with pairwise-distinct feeders and a
positive point timeout, every prefix of the sequence is accepted and after
it the stored aggregated price equals the spec's median (middle element of
the ascending price list for an odd count, the mean of the two middle
elements for an even count) of all prices submitted so far. -/
theorem one_round_aggregate_is_median (priceTimeout block_number timestamp : Nat)
    (subs : List (Nat × ℚ)) (hpt : 0 < priceTimeout)
    (hnodup : (subs.map Prod.fst).Nodup) :
    ∀ k, 0 < k → k ≤ subs.length →
      ∃ pd, run_submissions priceTimeout block_number timestamp none (subs.take k) =
          .ok (some pd) ∧
        pd.price = median_of_prices ((subs.take k).map Prod.snd) := by
  intro k hk hkle
  have hnodup' : ((subs.take k).map Prod.fst).Nodup :=
    ((List.take_sublist k subs).map Prod.fst).nodup hnodup
  cases htake : subs.take k with
  | nil =>
    exfalso
    have : (subs.take k).length = k := by
      rw [List.length_take]
      omega
    rw [htake] at this
    simp at this
    omega
  | cons hd rest =>
    obtain ⟨who, price⟩ := hd
    rw [htake] at hnodup'
    simp only [List.map_cons, List.nodup_cons] at hnodup'
    obtain ⟨pd0, hfirst, hinv0⟩ :=
      set_price_inner_first priceTimeout block_number timestamp who price
    have hdisj : ∀ w ∈ rest.map Prod.fst, w ∉ [(who, price)].map Prod.fst := by
      intro w hw
      simp only [List.map_cons, List.map_nil, List.mem_singleton]
      exact fun heq => hnodup'.1 (heq ▸ hw)
    obtain ⟨pd', hrun, hinv'⟩ :=
      run_submissions_inv priceTimeout block_number timestamp hpt rest
        [(who, price)] pd0 hinv0 hnodup'.2 hdisj
    refine ⟨pd', ?_, ?_⟩
    · simp only [run_submissions, hfirst]
      exact hrun
    · rw [hinv'.agg]
      have hsubsperm : (rest ++ [(who, price)]).Perm ((who, price) :: rest) :=
        List.perm_append_singleton _ _
    -- prices carried by the points are a permutation of the submitted prices
      have hpp : (pd'.price_points.map (fun q => q.price)).Perm
          (((who, price) :: rest).map Prod.snd) := by
        have h1 := (hinv'.points_perm.trans hsubsperm).map Prod.snd
        rw [List.map_map] at h1
        exact h1
      exact calc_median_eq_median_of_prices pd'.price_points _ hinv'.sorted hpp

/-- C1 witness: three feeders submitting 40000, 50000 and 60000 in one
round; after the two-submission prefix the aggregate is the mean of the
two middle values. -/
theorem one_round_aggregate_is_median_witness :
    (0 : Nat) < 1 ∧
      (([((1 : Nat), (40000 : ℚ)), (2, 50000), (3, 60000)].map Prod.fst).Nodup) ∧
      (∃ pd, run_submissions 1 5 100 none
          ([((1 : Nat), (40000 : ℚ)), (2, 50000), (3, 60000)].take 2) =
          .ok (some pd) ∧
        pd.price = median_of_prices
          (([((1 : Nat), (40000 : ℚ)), (2, 50000), (3, 60000)].take 2).map Prod.snd)) :=
  ⟨Nat.one_pos, by decide,
    one_round_aggregate_is_median 1 5 100
      [((1 : Nat), (40000 : ℚ)), (2, 50000), (3, 60000)] Nat.one_pos (by decide)
      2 (by decide) (by decide)⟩

/-! ### The accepted-submission normal form of set_price_inner -/

theorem binary_search_go_le (cmp : Nat → Ordering) :
    ∀ fuel left right pos, left ≤ right →
      (binary_search_go cmp fuel left right = .ok pos ∨
        binary_search_go cmp fuel left right = .error pos) →
      pos ≤ right := by
  intro fuel
  induction fuel with
  | zero =>
    intro l r pos hlr h
    rcases h with h | h
    · cases h
    · injection h with h
      omega
  | succ fuel ih =>
    intro l r pos hlr h
    by_cases hlt : l < r
    · simp only [binary_search_go, if_pos hlt] at h
      rcases hcmp : cmp (l + (r - l) / 2) with _ | _ | _ <;> rw [hcmp] at h
      · exact ih (l + (r - l) / 2 + 1) r pos (by omega) h
      · rcases h with h | h
        · injection h with h
          omega
        · cases h
      · have := ih l (l + (r - l) / 2) pos (by omega) h
        omega
    · simp only [binary_search_go, if_neg hlt] at h
      rcases h with h | h
      · cases h
      · injection h with h
        omega

theorem binary_search_by_price_le (l : List PricePoint) (price : ℚ) (pos : Nat)
    (hpos : binary_search_by_price l price = .ok pos ∨
      binary_search_by_price l price = .error pos) :
    pos ≤ l.length :=
  binary_search_go_le _ (l.length + 1) 0 l.length pos (by omega) hpos

/-- What an accepted submission stores: the new block number and
timestamp, and the new point inserted at some position within the
timeout-and-self filtered prior points, with the aggregate recomputed as
the median of the stored list. -/
theorem set_price_inner_ok (priceTimeout : Nat) (who : Nat) (price : ℚ)
    (block_number timestamp : Nat) (maybe_price_data : Option PriceData)
    (pd' : PriceData)
    (h : set_price_inner priceTimeout who price block_number timestamp
      maybe_price_data = .ok pd') :
    pd'.block_number = block_number ∧ pd'.timestamp = timestamp ∧
      ∃ pos, pos ≤ ((maybe_price_data.getD default).price_points.filter
          (fun pp => decide (timestamp < pp.timestamp + priceTimeout) &&
            pp.account_id != who)).length ∧
        pd'.price_points = ((maybe_price_data.getD default).price_points.filter
          (fun pp => decide (timestamp < pp.timestamp + priceTimeout) &&
            pp.account_id != who)).insertIdx pos
          { account_id := who, price := price, block_number := block_number,
            timestamp := timestamp } ∧
        pd'.price = calc_median_price pd'.price_points := by
  by_cases hc : ((maybe_price_data.getD default).block_number == block_number &&
      (maybe_price_data.getD default).price_points.any
        (fun pp => pp.account_id == who && pp.block_number == block_number)) = true
  · simp only [set_price_inner, hc, if_true] at h
    cases h
  · rw [Bool.not_eq_true] at hc
    simp only [set_price_inner, hc, Bool.false_eq_true, if_false] at h
    rcases hbs : binary_search_by_price
        ((maybe_price_data.getD default).price_points.filter
          (fun pp => decide (timestamp < pp.timestamp + priceTimeout) &&
            pp.account_id != who)) price with p | p <;>
      rw [hbs] at h <;> injection h with h <;> subst h
    · exact ⟨rfl, rfl, p, binary_search_by_price_le _ _ p (Or.inr hbs), rfl, rfl⟩
    · exact ⟨rfl, rfl, p, binary_search_by_price_le _ _ p (Or.inl hbs), rfl, rfl⟩

/-- An accepted submission can fail only through the duplicate check, so
with the duplicate condition false it succeeds. -/
theorem set_price_inner_isOk (priceTimeout : Nat) (who : Nat) (price : ℚ)
    (block_number timestamp : Nat) (maybe_price_data : Option PriceData)
    (hc : ((maybe_price_data.getD default).block_number == block_number &&
      (maybe_price_data.getD default).price_points.any
        (fun pp => pp.account_id == who && pp.block_number == block_number)) = false) :
    ∃ pd', set_price_inner priceTimeout who price block_number timestamp
      maybe_price_data = .ok pd' := by
  simp only [set_price_inner, hc, Bool.false_eq_true, if_false]
  rcases hbs : binary_search_by_price
      ((maybe_price_data.getD default).price_points.filter
        (fun pp => decide (timestamp < pp.timestamp + priceTimeout) &&
          pp.account_id != who)) price with p | p
  · exact ⟨_, rfl⟩
  · exact ⟨_, rfl⟩

theorem set_price_inner_error_of_dup (priceTimeout : Nat) (who : Nat) (price : ℚ)
    (block_number timestamp : Nat) (maybe_price_data : Option PriceData)
    (hc : ((maybe_price_data.getD default).block_number == block_number &&
      (maybe_price_data.getD default).price_points.any
        (fun pp => pp.account_id == who && pp.block_number == block_number)) = true) :
    set_price_inner priceTimeout who price block_number timestamp maybe_price_data =
      .error .PriceAlreadyAdded := by
  simp only [set_price_inner, hc, if_true]

/-- C4: a submission by feeder `who` at block `block_number` fails with
`PriceAlreadyAdded` if and only if the stored entry's `block_number`
equals the submission's and some stored point belongs to `who` with that
same block number; consequently a submission by the same feeder at a
strictly later block (all of that feeder's stored points having earlier
block numbers) is accepted — the check is block-scoped, not
time-scoped. -/
theorem duplicate_submission_block_scoped (priceTimeout : Nat) (who : Nat)
    (price : ℚ) (block_number timestamp : Nat) (pd : PriceData) :
    (set_price_inner priceTimeout who price block_number timestamp (some pd) =
        .error .PriceAlreadyAdded ↔
      (pd.block_number = block_number ∧
        ∃ pp ∈ pd.price_points, pp.account_id = who ∧
          pp.block_number = block_number)) ∧
    ((∀ pp ∈ pd.price_points, pp.account_id = who →
        pp.block_number < block_number) →
      ∃ pd', set_price_inner priceTimeout who price block_number timestamp
        (some pd) = .ok pd') := by
  have hcond : ((pd.block_number == block_number && pd.price_points.any
      (fun pp => pp.account_id == who && pp.block_number == block_number)) = true) ↔
      (pd.block_number = block_number ∧
        ∃ pp ∈ pd.price_points, pp.account_id = who ∧
          pp.block_number = block_number) := by
    simp [List.any_eq_true, Bool.and_eq_true, beq_iff_eq]
  constructor
  · cases hc : (pd.block_number == block_number && pd.price_points.any
        (fun pp => pp.account_id == who && pp.block_number == block_number)) with
    | true =>
      have herr := set_price_inner_error_of_dup priceTimeout who price
        block_number timestamp (some pd) hc
      rw [herr]
      simp only [true_iff]
      exact hcond.mp hc
    | false =>
      obtain ⟨pd', hpd'⟩ := set_price_inner_isOk priceTimeout who price
        block_number timestamp (some pd) hc
      rw [hpd']
      constructor
      · intro h
        cases h
      · intro hrhs
        have := hcond.mpr hrhs
        rw [hc] at this
        cases this
  · intro hlater
    apply set_price_inner_isOk
    have hany : pd.price_points.any
        (fun pp => pp.account_id == who && pp.block_number == block_number) = false := by
      rw [List.any_eq_false]
      intro pp hpp
      simp only [Bool.and_eq_true, beq_iff_eq, not_and]
      intro hacc
      have := hlater pp hpp hacc
      omega
    show (pd.block_number == block_number &&
      pd.price_points.any
        (fun pp => pp.account_id == who && pp.block_number == block_number)) = false
    rw [hany, Bool.and_false]

/-- C4 witness: feeder 1 has a stored point from block 5; its submission
at the later block 6 is accepted. -/
theorem duplicate_submission_block_scoped_witness :
    (∀ pp ∈ (PriceData.mk 5 100 40 [PricePoint.mk 5 100 40 1]).price_points,
      pp.account_id = 1 → pp.block_number < 6) ∧
    (∃ pd', set_price_inner 1 1 99 6 100
      (some (PriceData.mk 5 100 40 [PricePoint.mk 5 100 40 1])) = .ok pd') :=
  ⟨by decide,
    (duplicate_submission_block_scoped 1 1 99 6 100
      (PriceData.mk 5 100 40 [PricePoint.mk 5 100 40 1])).2 (by decide)⟩

/-- C5: on an accepted submission the stored list is, up to order, the
new point together with exactly those prior points that are strictly
younger than the point timeout and do not belong to the submitting
feeder; every timed-out point and every prior point of the feeder is
evicted, and the new aggregate is the median of the stored (filtered)
list only. -/
theorem eviction_exactness (priceTimeout : Nat) (who : Nat) (price : ℚ)
    (block_number timestamp : Nat) (pd pd' : PriceData)
    (h : set_price_inner priceTimeout who price block_number timestamp
      (some pd) = .ok pd') :
    pd'.price_points.Perm
      ({ account_id := who, price := price, block_number := block_number,
         timestamp := timestamp } ::
        pd.price_points.filter (fun pp =>
          decide (timestamp < pp.timestamp + priceTimeout) && pp.account_id != who)) ∧
    (∀ pp, pp ∈ pd.price_points.filter (fun pp =>
          decide (timestamp < pp.timestamp + priceTimeout) && pp.account_id != who) ↔
        (pp ∈ pd.price_points ∧ timestamp < pp.timestamp + priceTimeout ∧
          pp.account_id ≠ who)) ∧
    pd'.price = calc_median_price pd'.price_points := by
  obtain ⟨hbn, hts, pos, hle, hpts, hprice⟩ :=
    set_price_inner_ok priceTimeout who price block_number timestamp (some pd) pd' h
  refine ⟨?_, ?_, hprice⟩
  · rw [hpts]
    exact List.perm_insertIdx _ _ hle
  · intro pp
    simp [List.mem_filter, Bool.and_eq_true, decide_eq_true_eq, bne_iff_ne]

/-- C5 witness: with point timeout 50 and current time 100, feeder 1's
point from time 10 is evicted; the accepted submission of feeder 2 stores
just the new point. -/
theorem eviction_exactness_witness :
    (PriceData.mk 6 100 99 [PricePoint.mk 6 100 99 2]).price_points.Perm
      (PricePoint.mk 6 100 99 2 ::
        (PriceData.mk 5 10 40 [PricePoint.mk 5 10 40 1]).price_points.filter
          (fun pp => decide ((100 : Nat) < pp.timestamp + 50) && pp.account_id != 2)) :=
  (eviction_exactness 50 2 99 6 100 (PriceData.mk 5 10 40 [PricePoint.mk 5 10 40 1])
    (PriceData.mk 6 100 99 [PricePoint.mk 6 100 99 2]) rfl).1

/-- C6: the read path fails `CurrencyNotFound` exactly when no entry
exists; with a stored entry it fails `PriceTimeout` exactly when
`now - timestamp ≥ MedianPriceTimeout`; strictly inside the window it
fails `PriceIsZero` exactly on a zero aggregate, `PriceIsNegative`
exactly on a negative one, and returns the stored aggregate when it is
positive. -/
theorem get_price_spec (medianPriceTimeout current_time : Nat)
    (entry : Option PriceData) :
    (get_price medianPriceTimeout current_time entry = .error .CurrencyNotFound ↔
      entry = none) ∧
    (∀ pd, entry = some pd →
      ((get_price medianPriceTimeout current_time entry = .error .PriceTimeout ↔
          (medianPriceTimeout : ℤ) ≤ (current_time : ℤ) - (pd.timestamp : ℤ)) ∧
        ((current_time : ℤ) - (pd.timestamp : ℤ) < (medianPriceTimeout : ℤ) →
          ((get_price medianPriceTimeout current_time entry = .error .PriceIsZero ↔
              pd.price = 0) ∧
            (get_price medianPriceTimeout current_time entry =
                .error .PriceIsNegative ↔ pd.price < 0) ∧
            (0 < pd.price →
              get_price medianPriceTimeout current_time entry = .ok pd.price))))) := by
  constructor
  · cases entry with
    | none => simp [get_price]
    | some pd =>
      simp only [get_price]
      constructor
      · intro h
        exfalso
        by_cases ht : pd.timestamp + medianPriceTimeout ≤ current_time
        · rw [if_pos ht] at h
          cases h
        · rw [if_neg ht] at h
          by_cases hz : pd.price = 0
          · rw [if_pos hz] at h
            cases h
          · rw [if_neg hz] at h
            by_cases hn : pd.price < 0
            · rw [if_pos hn] at h
              cases h
            · rw [if_neg hn] at h
              cases h
      · intro h
        exact absurd h (Option.some_ne_none pd)
  · intro pd hpd
    subst hpd
    simp only [get_price]
    by_cases ht : pd.timestamp + medianPriceTimeout ≤ current_time
    · rw [if_pos ht]
      refine ⟨⟨fun _ => by omega, fun _ => rfl⟩, fun hlt => absurd hlt (by omega)⟩
    · rw [if_neg ht]
      refine ⟨⟨fun h => ?_, fun hge => absurd hge (by omega)⟩,
        fun _ => ⟨?_, ?_, ?_⟩⟩
      · exfalso
        by_cases hz : pd.price = 0
        · rw [if_pos hz] at h
          cases h
        · rw [if_neg hz] at h
          by_cases hn : pd.price < 0
          · rw [if_pos hn] at h
            cases h
          · rw [if_neg hn] at h
            cases h
      · by_cases hz : pd.price = 0
        · rw [if_pos hz]
          simp [hz]
        · rw [if_neg hz]
          constructor
          · intro h
            exfalso
            by_cases hn : pd.price < 0
            · rw [if_pos hn] at h
              cases h
            · rw [if_neg hn] at h
              cases h
          · intro h
            exact absurd h hz
      · by_cases hz : pd.price = 0
        · rw [if_pos hz]
          constructor
          · intro h
            cases h
          · intro h
            rw [hz] at h
            exact absurd h (lt_irrefl 0)
        · rw [if_neg hz]
          by_cases hn : pd.price < 0
          · rw [if_pos hn]
            simp [hn]
          · rw [if_neg hn]
            constructor
            · intro h
              cases h
            · intro h
              exact absurd h hn
      · intro hpos
        rw [if_neg (ne_of_gt hpos), if_neg (not_lt.mpr (le_of_lt hpos))]

/-- C6 witness: a fresh entry (timestamp 100, aggregate 42) read at time
120 with a 60-second median timeout succeeds with the stored
aggregate. -/
theorem get_price_spec_witness :
    get_price 60 120 (some (PriceData.mk 5 100 42 [])) =
      .ok (PriceData.mk 5 100 42 []).price :=
  (((get_price_spec 60 120 (some (PriceData.mk 5 100 42 []))).2
    (PriceData.mk 5 100 42 []) rfl).2 (by norm_num)).2.2 (by norm_num)

/-- C7: the submission validator checks, in order with the first failure
winning: the pluggable additional validator (`AdditionalValidatorFailed`),
whitelist membership (`NotAllowedToSubmitPrice`), asset resolvability
(propagating the lookup error), absence of a constant-price or
direct-correlation overlay (`WrongCurrency`), then price sign
(`PriceIsNegative`) and zero (`PriceIsZero`); a submission passes only if
every check passes. (The source adds one further `exists` check after the
price checks, which the pass-only-if direction subsumes.) -/
theorem validate_params_order (env : ValidateEnv) (price : ℚ) :
    (validate_params env price = .error (.oracle .AdditionalValidatorFailed) ↔
      env.additional_ok = false) ∧
    (env.additional_ok = true →
      (validate_params env price = .error (.oracle .NotAllowedToSubmitPrice) ↔
        env.in_whitelist = false)) ∧
    (env.additional_ok = true → env.in_whitelist = true →
      ∀ err, env.asset_lookup = .error err →
        validate_params env price = .error (.external err)) ∧
    (env.additional_ok = true → env.in_whitelist = true →
      env.asset_lookup = .ok () →
      (env.special_price.isSome || env.direct_correlation.isSome) = true →
      validate_params env price = .error (.oracle .WrongCurrency)) ∧
    (env.additional_ok = true → env.in_whitelist = true →
      env.asset_lookup = .ok () →
      (env.special_price.isSome || env.direct_correlation.isSome) = false →
      ((price < 0 → validate_params env price = .error (.oracle .PriceIsNegative)) ∧
        (¬price < 0 → price = 0 →
          validate_params env price = .error (.oracle .PriceIsZero)))) ∧
    (validate_params env price = .ok () →
      env.additional_ok = true ∧ env.in_whitelist = true ∧
        env.asset_lookup = .ok () ∧ env.special_price = none ∧
        env.direct_correlation = none ∧ 0 < price) := by
  cases hadd : env.additional_ok with
  | false =>
    have hfail : validate_params env price =
        .error (.oracle .AdditionalValidatorFailed) := by
      simp [validate_params, hadd]
    rw [hfail]
    refine ⟨by simp, ?_, ?_, ?_, ?_, ?_⟩ <;> intro h <;> simp_all
  | true =>
    cases hwl : env.in_whitelist with
    | false =>
      have hfail : validate_params env price =
          .error (.oracle .NotAllowedToSubmitPrice) := by
        simp [validate_params, hadd, hwl]
      rw [hfail]
      refine ⟨by simp, fun _ => by simp, ?_, ?_, ?_, ?_⟩ <;> intro h <;> simp_all
    | true =>
      cases hlook : env.asset_lookup with
      | error err =>
        have hfail : validate_params env price = .error (.external err) := by
          simp [validate_params, hadd, hwl, hlook]
        rw [hfail]
        refine ⟨by simp, fun _ => by simp, ?_, ?_, ?_, ?_⟩
        · intro _ _ err' herr'
          injection herr' with herr'
          rw [herr']
        · intro _ _ hok
          cases hok
        · intro _ _ hok
          cases hok
        · intro h
          cases h
      | ok u =>
        cases u
        cases hov : (env.special_price.isSome || env.direct_correlation.isSome) with
        | true =>
          have hfail : validate_params env price = .error (.oracle .WrongCurrency) := by
            simp only [validate_params, hadd, hwl, hlook, Bool.not_true,
              Bool.false_eq_true, if_false, hov, if_true]
          rw [hfail]
          refine ⟨by simp, fun _ => by simp, ?_, fun _ _ _ _ => rfl, ?_, ?_⟩
          · intro _ _ err' herr'
            cases herr'
          · intro _ _ _ hov'
            cases hov'
          · intro h
            cases h
        | false =>
          by_cases hneg : price < 0
          · have hfail : validate_params env price =
                .error (.oracle .PriceIsNegative) := by
              simp only [validate_params, hadd, hwl, hlook, Bool.not_true,
                Bool.false_eq_true, if_false, hov, if_pos hneg]
            rw [hfail]
            refine ⟨by simp, fun _ => by simp, ?_, ?_, ?_, ?_⟩
            · intro _ _ err' herr'
              cases herr'
            · intro _ _ _ hov'
              cases hov'
            · exact fun _ _ _ _ => ⟨fun _ => rfl, fun hn _ => absurd hneg hn⟩
            · intro h
              cases h
          · by_cases hz : price = 0
            · have hfail : validate_params env price =
                  .error (.oracle .PriceIsZero) := by
                simp only [validate_params, hadd, hwl, hlook, Bool.not_true,
                  Bool.false_eq_true, if_false, hov, if_neg hneg, if_pos hz]
              rw [hfail]
              refine ⟨by simp, fun _ => by simp, ?_, ?_, ?_, ?_⟩
              · intro _ _ err' herr'
                cases herr'
              · intro _ _ _ hov'
                cases hov'
              · exact fun _ _ _ _ => ⟨fun hn => absurd hn hneg, fun _ _ => rfl⟩
              · intro h
                cases h
            · have hrest : validate_params env price =
                  (if !env.asset_exists then .error (.oracle .WrongCurrency)
                    else .ok ()) := by
                simp only [validate_params, hadd, hwl, hlook, Bool.not_true,
                  Bool.false_eq_true, if_false, hov, if_neg hneg, if_neg hz]
              rw [hrest]
              have hov' := hov
              rw [Bool.or_eq_false_iff] at hov'
              refine ⟨?_, fun _ => ?_, ?_, ?_, ?_, ?_⟩
              · cases hex : env.asset_exists <;> simp
              · cases hex : env.asset_exists <;> simp
              · intro _ _ err' herr'
                cases herr'
              · intro _ _ _ hovt
                cases hovt
              · exact fun _ _ _ _ => ⟨fun hn => absurd hn hneg, fun _ hzz => absurd hzz hz⟩
              · intro hok
                refine ⟨rfl, rfl, rfl, ?_, ?_, ?_⟩
                · exact Option.not_isSome_iff_eq_none.mp (by simp [hov'.1])
                · exact Option.not_isSome_iff_eq_none.mp (by simp [hov'.2])
                · rcases lt_trichotomy price 0 with h | h | h
                  · exact absurd h hneg
                  · exact absurd h hz
                  · exact h

/-- C7 witness: with the additional validator failing, validation fails
with AdditionalValidatorFailed whatever the price. -/
theorem validate_params_order_witness :
    validate_params
      { additional_ok := false, in_whitelist := true, asset_lookup := .ok (),
        special_price := none, direct_correlation := none, asset_exists := true }
      5 = .error (.oracle .AdditionalValidatorFailed) :=
  (validate_params_order
    { additional_ok := false, in_whitelist := true, asset_lookup := .ok (),
      special_price := none, direct_correlation := none, asset_exists := true }
    5).1.mpr rfl

/-- C9: an unsigned price-update message with a valid signature is
rejected as Stale exactly when its block number is in the future or more
than UnsignedLifetimeInBlocks behind the current height; inside the
window (with valid signature and parameters) it is accepted. -/
theorem validate_unsigned_stale_iff (unsignedLifetimeInBlocks initial_priority
    min_transaction_weight current_block : Nat) (signature_valid : Bool)
    (payload_block_number : Nat) (params_result : Except DispatchErr Unit) :
    (validate_unsigned unsignedLifetimeInBlocks initial_priority
        min_transaction_weight current_block signature_valid
        payload_block_number params_result = .error .Stale ↔
      (signature_valid = true ∧
        (current_block < payload_block_number ∨
          payload_block_number + unsignedLifetimeInBlocks < current_block))) ∧
    (signature_valid = true → payload_block_number ≤ current_block →
      current_block ≤ payload_block_number + unsignedLifetimeInBlocks →
      params_result = .ok () →
      ∃ v, validate_unsigned unsignedLifetimeInBlocks initial_priority
        min_transaction_weight current_block signature_valid
        payload_block_number params_result = .ok v) := by
  cases signature_valid with
  | false =>
    have h : validate_unsigned unsignedLifetimeInBlocks initial_priority
        min_transaction_weight current_block false payload_block_number
        params_result = .error .BadProof := by
      simp [validate_unsigned]
    rw [h]
    exact ⟨by simp, fun hsig => by cases hsig⟩
  | true =>
    constructor
    · by_cases hfut : current_block < payload_block_number
      · have h : validate_unsigned unsignedLifetimeInBlocks initial_priority
            min_transaction_weight current_block true payload_block_number
            params_result = .error .Stale := by
          simp [validate_unsigned, hfut]
        rw [h]
        simp [hfut]
      · by_cases hold : payload_block_number + unsignedLifetimeInBlocks < current_block
        · have h : validate_unsigned unsignedLifetimeInBlocks initial_priority
              min_transaction_weight current_block true payload_block_number
              params_result = .error .Stale := by
            simp [validate_unsigned, hfut, hold]
          rw [h]
          simp [hold]
        · constructor
          · intro h
            exfalso
            simp only [validate_unsigned, Bool.not_true, Bool.false_eq_true,
              if_false] at h
            rw [if_neg hfut, if_neg hold] at h
            cases params_result with
            | error e => simp at h
            | ok u => simp at h
          · rintro ⟨_, hcase⟩
            exact absurd hcase (by simp [hfut, hold])
    · intro _ hle hwin hok
      subst hok
      refine ⟨{ priority := u64_saturating_add initial_priority
                  (payload_block_number % min_transaction_weight),
                longevity := 5 }, ?_⟩
      simp only [validate_unsigned, Bool.not_true, Bool.false_eq_true, if_false]
      rw [if_neg (by omega), if_neg (by omega)]

/-- C9 witness: with lifetime 5, a message from block 8 validated at
height 10 with a valid signature and passing parameters is accepted. -/
theorem validate_unsigned_stale_iff_witness :
    (8 : Nat) ≤ 10 ∧ (10 : Nat) ≤ 8 + 5 ∧
      (∃ v, validate_unsigned 5 7 3 10 true 8 (.ok ()) = .ok v) :=
  ⟨by omega, by omega,
    (validate_unsigned_stale_iff 5 7 3 10 true 8 (.ok ())).2 rfl (by omega)
      (by omega) rfl⟩

/-- C10: `calc_median_price` is applied only to non-empty lists, so its
unguarded reads at indices `len / 2` and (for even `len`) `len / 2 - 1`
are in bounds: every stored entry produced by an accepted submission has
a non-empty point list containing those indices, a feeder-removal sweep
deletes an entry instead of storing an empty list, and any entry it keeps
also has those indices in bounds. -/
theorem calc_median_callers_nonempty :
    (∀ (priceTimeout who : Nat) (price : ℚ) (block_number timestamp : Nat)
        (maybe : Option PriceData) (pd' : PriceData),
      set_price_inner priceTimeout who price block_number timestamp maybe =
          .ok pd' →
        pd'.price_points ≠ [] ∧
        pd'.price_points.length / 2 < pd'.price_points.length ∧
        (pd'.price_points.length % 2 = 0 →
          pd'.price_points.length / 2 - 1 < pd'.price_points.length)) ∧
    (∀ (who : Nat) (pd : PriceData),
      pd.price_points.filter (fun pp => pp.account_id != who) = [] →
        filter_prices_from who (some pd) = none) ∧
    (∀ (who : Nat) (entry : Option PriceData) (pd' : PriceData),
      filter_prices_from who entry = some pd' →
        pd'.price_points ≠ [] ∧
        pd'.price_points.length / 2 < pd'.price_points.length ∧
        (pd'.price_points.length % 2 = 0 →
          pd'.price_points.length / 2 - 1 < pd'.price_points.length)) := by
  refine ⟨?_, ?_, ?_⟩
  · intro priceTimeout who price block_number timestamp maybe pd' h
    obtain ⟨_, _, pos, hle, hpts, _⟩ :=
      set_price_inner_ok priceTimeout who price block_number timestamp maybe pd' h
    have hlen : pd'.price_points.length =
        ((maybe.getD default).price_points.filter
          (fun pp => decide (timestamp < pp.timestamp + priceTimeout) &&
            pp.account_id != who)).length + 1 := by
      rw [hpts]
      exact List.length_insertIdx _ _ hle
    refine ⟨?_, by omega, by omega⟩
    intro hnil
    rw [hnil] at hlen
    simp at hlen
  · intro who pd hempty
    simp only [filter_prices_from, hempty, List.length_nil]
    rfl
  · intro who entry pd' h
    cases entry with
    | none => cases h
    | some pd =>
      simp only [filter_prices_from] at h
      by_cases h0 : ((pd.price_points.filter
          (fun pp => pp.account_id != who)).length == 0) = true
      · rw [if_pos h0] at h
        cases h
      · rw [if_neg h0] at h
        have hlen0 : (pd.price_points.filter
            (fun pp => pp.account_id != who)).length ≠ 0 := by
          simpa using h0
        by_cases hch : ((pd.price_points.filter
            (fun pp => pp.account_id != who)).length != pd.price_points.length) = true
        · rw [if_pos hch] at h
          injection h with h
          subst h
          simp only []
          refine ⟨?_, by omega, by omega⟩
          intro hnil
          rw [hnil] at hlen0
          simp at hlen0
        · rw [if_neg hch] at h
          injection h with h
          subst h
          have heq : (pd.price_points.filter
              (fun pp => pp.account_id != who)).length = pd.price_points.length := by
            simpa using hch
          have : pd.price_points.length ≠ 0 := by omega
          refine ⟨?_, by omega, by omega⟩
          intro hnil
          rw [hnil] at this
          simp at this

/-- C10 witness: a first accepted submission stores a one-point list, for
which the median index 0 is in bounds. -/
theorem calc_median_callers_nonempty_witness :
    (set_price_inner 1 1 5 1 100 none =
      .ok (PriceData.mk 1 100 5 [PricePoint.mk 1 100 5 1])) ∧
      ((PriceData.mk 1 100 5 [PricePoint.mk 1 100 5 1]).price_points ≠ [] ∧
        (PriceData.mk 1 100 5 [PricePoint.mk 1 100 5 1]).price_points.length / 2 <
          (PriceData.mk 1 100 5 [PricePoint.mk 1 100 5 1]).price_points.length ∧
        ((PriceData.mk 1 100 5 [PricePoint.mk 1 100 5 1]).price_points.length % 2 = 0 →
          (PriceData.mk 1 100 5 [PricePoint.mk 1 100 5 1]).price_points.length / 2 - 1 <
            (PriceData.mk 1 100 5 [PricePoint.mk 1 100 5 1]).price_points.length)) :=
  ⟨rfl, calc_median_callers_nonempty.1 1 1 5 1 100 none
    (PriceData.mk 1 100 5 [PricePoint.mk 1 100 5 1]) rfl⟩

end Pallet

/-! ## pallets/eq-oracle/src/price_source/json.rs : JSON price source

`fetch_price` performs HTTP I/O and JSON-path walking; for the batch loop
it matters only through its per-asset `Result`, so it is abstracted as an
environment function, as is the `AsSymbol::get_symbol` capability of the
generic `AssetId` parameter. Assets are `Nat`, symbols are `String`. -/

namespace JsonPriceSource

/-- The error enum `PriceSourceError` of the JSON price source. -/
inductive PriceSourceError where
  | HttpError
  | WrongUrlPattern
  | NoQueryStringInStorage
  | IncorrectQueryFormat
  | DeserializationError
  | JsonParseError
  | JsonValueNotANumber
  | JsonPriceConversionError
  | UnknownPriceStrategy
  | Symbol
deriving DecidableEq, Repr

/-- The `From<PriceSourceError> for &'static str` conversion applied by
`price.map_err(From::from)`. -/
def PriceSourceError.toStr : PriceSourceError → String
  | .HttpError => "Http error"
  | .WrongUrlPattern => "Wrong url pattern"
  | .NoQueryStringInStorage => "No query string in storage"
  | .IncorrectQueryFormat => "Incorrect query format"
  | .DeserializationError => "Deserialization error"
  | .JsonParseError => "Json parse error"
  | .JsonValueNotANumber => "Json value not a number"
  | .JsonPriceConversionError => "Json price conversion error"
  | .UnknownPriceStrategy => "Unknown price strategy"
  | .Symbol => "Symbol"

/-- `FixedPointNumber::reciprocal`: `one / self`, `None` on zero. -/
def reciprocal (q : ℚ) : Option ℚ :=
  if q = 0 then none else some (1 / q)

/-- The per-asset environment of one `get_prices` batch: symbol
resolution for the generic asset type and the outcome of
`Self::fetch_price` (URL building, HTTP GET, JSON-path walk, numeric
conversion) for each asset. -/
structure FetchEnv where
  get_symbol : Nat → Option String
  fetch : Nat → Except PriceSourceError ℚ

/-- The loop body of `JsonPriceSource::get_prices` for one asset:
`some (some r)` pushes the result `r`, `some none` is the `continue`
skipping an asset absent from a non-empty restriction set, and `none`
models the `expect` panic taken when the "reverse" strategy meets a zero
price (reciprocal of zero). -/
def process_asset (asset_settings : List (String × String)) (env : FetchEnv)
    (asset : Nat) : Option (Option (Except PriceSourceError ℚ)) :=
  if asset_settings.isEmpty then
    some (some (env.fetch asset))
  else
    match env.get_symbol asset with
    | some symbol =>
      match asset_settings.lookup symbol with
      | some price_strategy =>
        match env.fetch asset with
        | .ok price =>
          if price_strategy = "price" then
            some (some (.ok price))
          else if price_strategy = "reverse" then
            match reciprocal price with
            | some r => some (some (.ok r))
            | none => none
          else
            some (some (.error .UnknownPriceStrategy))
        | .error e => some (some (.error e))
      | none => some none
    | none => some (some (.error .Symbol))

/-- `JsonPriceSource::get_prices`: processes every asset of
`assets_data` in order, pushing `(asset, price.map_err(From::from))` for
each fetched asset and skipping restricted ones; `none` propagates the
reverse-of-zero panic. -/
def get_prices (asset_settings : List (String × String)) (env : FetchEnv) :
    List Nat → Option (List (Nat × Except String ℚ))
  | [] => some []
  | asset :: rest =>
    match process_asset asset_settings env asset with
    | none => none
    | some none => get_prices asset_settings env rest
    | some (some r) =>
      (get_prices asset_settings env rest).map
        (fun tl => (asset, r.mapError PriceSourceError.toStr) :: tl)

end JsonPriceSource

namespace Pallet

open JsonPriceSource

/-- `Pallet::update_prices`: for each `(asset, price_result)` of the
batch, submit an unsigned price transaction on `Ok` and log-and-continue
on `Err`; returns the submitted `(asset, price)` pairs in order. -/
def update_prices (prices : List (Nat × Except String ℚ)) : List (Nat × ℚ) :=
  prices.filterMap (fun ap =>
    match ap.2 with
    | .ok price => some (ap.1, price)
    | .error _ => none)

theorem get_prices_total (asset_settings : List (String × String))
    (env : FetchEnv) :
    ∀ l : List Nat, (∀ a ∈ l, process_asset asset_settings env a ≠ none) →
      ∃ r, get_prices asset_settings env l = some r := by
  intro l
  induction l with
  | nil => exact fun _ => ⟨[], rfl⟩
  | cons a rest ih =>
    intro hnp
    obtain ⟨r, hr⟩ := ih fun x hx => hnp x (List.mem_cons_of_mem a hx)
    cases hpa : process_asset asset_settings env a with
    | none => exact absurd hpa (hnp a (List.mem_cons_self a rest))
    | some o =>
      cases o with
      | none =>
        refine ⟨r, ?_⟩
        simp only [get_prices, hpa]
        exact hr
      | some res =>
        refine ⟨(a, res.mapError PriceSourceError.toStr) :: r, ?_⟩
        simp only [get_prices, hpa, hr]
        rfl

theorem get_prices_append (asset_settings : List (String × String))
    (env : FetchEnv) :
    ∀ (l1 l2 : List Nat) (r1 : List (Nat × Except String ℚ)),
      get_prices asset_settings env l1 = some r1 →
      get_prices asset_settings env (l1 ++ l2) =
        (get_prices asset_settings env l2).map (fun r2 => r1 ++ r2) := by
  intro l1
  induction l1 with
  | nil =>
    intro l2 r1 h1
    injection h1 with h1
    subst h1
    simp only [List.nil_append]
    cases h2 : get_prices asset_settings env l2 with
    | none => rfl
    | some r2 => simp
  | cons a rest ih =>
    intro l2 r1 h1
    simp only [get_prices] at h1 ⊢
    cases hpa : process_asset asset_settings env a with
    | none =>
      rw [hpa] at h1
      cases h1
    | some o =>
      rw [hpa] at h1
      cases o with
      | none => exact ih l2 r1 h1
      | some res =>
        cases hrest : get_prices asset_settings env rest with
        | none =>
          rw [hrest] at h1
          cases h1
        | some rr =>
          rw [hrest] at h1
          injection h1 with h1
          subst h1
          show Option.map (fun tl => (a, res.mapError PriceSourceError.toStr) :: tl)
              (get_prices asset_settings env (rest ++ l2)) =
            Option.map
              (fun r2 => ((a, res.mapError PriceSourceError.toStr) :: rr) ++ r2)
              (get_prices asset_settings env l2)
          rw [ih l2 rr hrest]
          cases h2 : get_prices asset_settings env l2 with
          | none => rfl
          | some r2 => simp

/-- C8 counterexample: per-asset failure isolation does NOT hold for
every batch under the "reverse" strategy. When a "reverse" asset fetches
a zero price, `price.reciprocal().expect("Price should be more than 0")`
panics and aborts the entire batch (modelled as `none`): the batch below
produces no result list at all, so the remaining healthy asset 2 is not
processed and not even an error entry for asset 1 survives. -/
theorem reverse_zero_price_aborts_batch :
    JsonPriceSource.get_prices [("s1", "reverse"), ("s2", "price")]
      { get_symbol := fun a => if a = 1 then some "s1" else some "s2",
        fetch := fun a => if a = 1 then .ok 0 else .ok 4 }
      [1, 2] = none := rfl

/-- C8 (amended): in one fetch cycle, an asset whose fetch-or-convert step fails
(HTTP error or timeout, malformed query, JSON-shape mismatch,
unresolvable symbol, unknown strategy, non-numeric leaf — any
`PriceSourceError`) contributes only a logged error entry: the batch
still produces exactly the entries of the assets before and after it
(whatever the configured strategies, "reverse" included, as long as no
fetched price is the reverse-of-zero panic case), and `update_prices`
submits every successful asset while skipping only the failed one. -/
theorem per_asset_failure_isolated (asset_settings : List (String × String))
    (env : FetchEnv) (l1 l2 : List Nat) (bad : Nat) (e : PriceSourceError)
    (hnp : ∀ a ∈ l1 ++ bad :: l2, process_asset asset_settings env a ≠ none)
    (hbad : process_asset asset_settings env bad = some (some (.error e))) :
    ∃ r1 r2, get_prices asset_settings env l1 = some r1 ∧
      get_prices asset_settings env l2 = some r2 ∧
      get_prices asset_settings env (l1 ++ bad :: l2) =
        some (r1 ++ (bad, .error e.toStr) :: r2) ∧
      update_prices (r1 ++ (bad, .error e.toStr) :: r2) =
        update_prices r1 ++ update_prices r2 := by
  obtain ⟨r1, hr1⟩ := get_prices_total asset_settings env l1
    (fun a ha => hnp a (List.mem_append_left _ ha))
  obtain ⟨r2, hr2⟩ := get_prices_total asset_settings env l2
    (fun a ha => hnp a (List.mem_append_right _ (List.mem_cons_of_mem bad ha)))
  refine ⟨r1, r2, hr1, hr2, ?_, ?_⟩
  · rw [get_prices_append asset_settings env l1 (bad :: l2) r1 hr1]
    simp only [get_prices, hbad, hr2]
    rfl
  · simp only [update_prices, List.filterMap_append]
    rfl

/-- C8 witness: three assets under strategies reverse/price/reverse; the
middle asset's HTTP failure is isolated — the batch still yields entries
for all three and submits the two successful prices. -/
theorem per_asset_failure_isolated_witness :
    ∃ r1 r2,
      get_prices [("s1", "reverse"), ("s2", "price"), ("s3", "reverse")]
        { get_symbol := fun a =>
            if a = 1 then some "s1" else if a = 2 then some "s2" else some "s3",
          fetch := fun a =>
            if a = 1 then .ok 2 else if a = 2 then .error .HttpError else .ok 4 }
        [1] = some r1 ∧
      get_prices [("s1", "reverse"), ("s2", "price"), ("s3", "reverse")]
        { get_symbol := fun a =>
            if a = 1 then some "s1" else if a = 2 then some "s2" else some "s3",
          fetch := fun a =>
            if a = 1 then .ok 2 else if a = 2 then .error .HttpError else .ok 4 }
        [3] = some r2 ∧
      get_prices [("s1", "reverse"), ("s2", "price"), ("s3", "reverse")]
        { get_symbol := fun a =>
            if a = 1 then some "s1" else if a = 2 then some "s2" else some "s3",
          fetch := fun a =>
            if a = 1 then .ok 2 else if a = 2 then .error .HttpError else .ok 4 }
        ([1] ++ 2 :: [3]) =
        some (r1 ++ (2, .error (PriceSourceError.toStr .HttpError)) :: r2) ∧
      update_prices (r1 ++ (2, .error (PriceSourceError.toStr .HttpError)) :: r2) =
        update_prices r1 ++ update_prices r2 :=
  per_asset_failure_isolated [("s1", "reverse"), ("s2", "price"), ("s3", "reverse")]
    { get_symbol := fun a =>
        if a = 1 then some "s1" else if a = 2 then some "s2" else some "s3",
      fetch := fun a =>
        if a = 1 then .ok 2 else if a = 2 then .error .HttpError else .ok 4 }
    [1] [3] 2 .HttpError
    (by
      intro a ha
      fin_cases ha <;> exact fun h => Option.noConfusion h)
    (by rfl)

end Pallet

end Equilibrium
